import Mathlib

/-!
Shallow embedding of the sprotty model core: the indexed model tree
(`SModelElement`, `SModelIndex`, the structural operations of
`SParentElement`) and the render-update scheduler (`ViewerCache`).

Mutable-heap semantics of the TypeScript source are made explicit:
every operation returns the new state, and an operation that throws
returns the state as mutated up to the throw (TypeScript exceptions do
not roll back earlier mutations).
-/

/-- A model element: `type` tag, `id`, and an ordered children sequence.
Mirrors `SModelElementSchema` / the element classes in `smodel.ts`. -/
inductive SModelElement where
  | mk (type : String) (id : String) (children : List SModelElement)

mutual

/-- Decidable equality on elements (JS `===` is reference equality; in
this value-level embedding distinct live elements are distinct values). -/
def SModelElement.decEq : (a b : SModelElement) → Decidable (a = b)
  | .mk t1 i1 c1, .mk t2 i2 c2 =>
    match String.decEq t1 t2 with
    | .isFalse h => .isFalse (by intro he; cases he; exact h rfl)
    | .isTrue h1 =>
      match String.decEq i1 i2 with
      | .isFalse h => .isFalse (by intro he; cases he; exact h rfl)
      | .isTrue h2 =>
        match decEqChildren c1 c2 with
        | .isTrue h3 => .isTrue (by rw [h1, h2, h3])
        | .isFalse h => .isFalse (by intro he; cases he; exact h rfl)

/-- Decidable equality on children lists. -/
def decEqChildren : (as bs : List SModelElement) → Decidable (as = bs)
  | [], [] => .isTrue rfl
  | [], _ :: _ => .isFalse (by intro h; cases h)
  | _ :: _, [] => .isFalse (by intro h; cases h)
  | a :: as, b :: bs =>
    match SModelElement.decEq a b with
    | .isFalse h => .isFalse (by intro he; injection he with h1 _; exact h h1)
    | .isTrue h1 =>
      match decEqChildren as bs with
      | .isTrue h2 => .isTrue (by rw [h1, h2])
      | .isFalse h => .isFalse (by intro he; injection he with _ h2; exact h h2)

end

instance : DecidableEq SModelElement := SModelElement.decEq

def SModelElement.type : SModelElement → String
  | .mk t _ _ => t

def SModelElement.id : SModelElement → String
  | .mk _ i _ => i

def SModelElement.children : SModelElement → List SModelElement
  | .mk _ _ cs => cs

/-- The four error kinds of the structural operations (§7 of the design). -/
inductive SError where
  | duplicateIdentifier (id : String)
  | childNotFound (id : String)
  | indexOutOfBounds (i : Int)
  | detachedElement
deriving DecidableEq

/-- The identity index: the `id2element : Map<string, E>` of `SModelIndex`,
modelled as an insertion-ordered association list (JS `Map` semantics). -/
abbrev SModelIndex := List (String × SModelElement)

/-- `Map.has(id)`. -/
def SModelIndex.has (idx : SModelIndex) (id : String) : Bool :=
  idx.any (fun p => p.1 == id)

/-- `Map.set(id, e)`: overwrite in place if the key exists, else append. -/
def SModelIndex.set (idx : SModelIndex) (id : String) (e : SModelElement) :
    SModelIndex :=
  if idx.has id then
    idx.map (fun p => if p.1 == id then (id, e) else p)
  else
    idx ++ [(id, e)]

/-- `SModelIndex.contains(element)`: membership is decided by id alone. -/
def SModelIndex.containsEl (idx : SModelIndex) (e : SModelElement) : Bool :=
  idx.has e.id

/-- `Map.get(id)`, i.e. `SModelIndex.getById`. -/
def SModelIndex.getById (idx : SModelIndex) (id : String) :
    Option SModelElement :=
  (idx.find? (fun p => p.1 == id)).map Prod.snd

/-- The fixed low-ambiguity alphabet of `createRandomId`. -/
def ID_CHARS : String := "0123456789abcdefghijklmnopqrstuvwxyz"

/-- The default generated-id length (`length: number = 8`). -/
def defaultIdLength : Nat := 8

/-- `createRandomId(length)`: draws `len` characters from `ID_CHARS`.
The stream of values of `Math.floor(Math.random() * ID_CHARS.length)`
is abstracted as `rand : Nat → Fin 36`; `pos` is the position in that
stream at which this call starts drawing. -/
def createRandomId (rand : Nat → Fin 36) (pos : Nat) (len : Nat) : String :=
  String.mk ((List.range len).map (fun i => ID_CHARS.data.getD (rand (pos + i)).val 'x'))

/-- The `do { element.id = createRandomId() } while (this.contains(element))`
loop of `SModelIndex.add`, with explicit fuel (the source loop has no
attempt bound). Returns the accepted id and the next stream position. -/
def genFreshId (idx : SModelIndex) (rand : Nat → Fin 36) :
    Nat → Nat → Option (String × Nat)
  | _, 0 => none
  | pos, fuel + 1 =>
    if idx.has (createRandomId rand pos defaultIdLength) then
      genFreshId idx rand (pos + defaultIdLength) fuel
    else
      some (createRandomId rand pos defaultIdLength, pos + defaultIdLength)

/-- Result of `SModelIndex.add` on one element: on success the index, the
element with any freshly assigned ids, and the next random-stream
position; on a thrown `Error` the index as mutated up to the throw;
`diverge` when the id-generation loop runs out of fuel. -/
inductive AddRes where
  | ok (idx : SModelIndex) (e : SModelElement) (pos : Nat)
  | err (idx : SModelIndex) (pos : Nat) (e : SError)
  | diverge
deriving DecidableEq

/-- Result of registering a list of children in sequence. -/
inductive AddResL where
  | ok (idx : SModelIndex) (cs : List SModelElement) (pos : Nat)
  | err (idx : SModelIndex) (pos : Nat) (e : SError)
  | diverge
deriving DecidableEq

mutual

/-- `SModelIndex.add(element)`: assign a fresh id when the id is empty
(throw-free retry loop), throw `DuplicateIdentifier` when the id is
already registered, else register the element and then recursively
register its children. -/
def indexAdd (rand : Nat → Fin 36) (fuel : Nat) (idx : SModelIndex) :
    SModelElement → Nat → AddRes
  | .mk ty id cs, pos =>
    if id = "" then
      match genFreshId idx rand pos fuel with
      | none => .diverge
      | some (nid, pos') =>
        match indexAddChildren rand fuel (idx.set nid (.mk ty nid cs)) cs pos' with
        | .ok idx' cs' p' => .ok idx' (.mk ty nid cs') p'
        | .err i p e => .err i p e
        | .diverge => .diverge
    else if idx.has id then
      .err idx pos (.duplicateIdentifier id)
    else
      match indexAddChildren rand fuel (idx.set id (.mk ty id cs)) cs pos with
      | .ok idx' cs' p' => .ok idx' (.mk ty id cs') p'
      | .err i p e => .err i p e
      | .diverge => .diverge

/-- The `for (const child of element.children) this.add(child)` loop:
an exception aborts the loop, keeping the index mutations made so far. -/
def indexAddChildren (rand : Nat → Fin 36) (fuel : Nat) (idx : SModelIndex) :
    List SModelElement → Nat → AddResL
  | [], pos => .ok idx [] pos
  | c :: rest, pos =>
    match indexAdd rand fuel idx c pos with
    | .ok idx' c' pos' =>
      match indexAddChildren rand fuel idx' rest pos' with
      | .ok idx'' rest' pos'' => .ok idx'' (c' :: rest') pos''
      | .err i p e => .err i p e
      | .diverge => .diverge
    | .err i p e => .err i p e
    | .diverge => .diverge

end

mutual

/-- The ids of a subtree in registration (preorder) order. -/
def subtreeIds : SModelElement → List String
  | .mk _ id cs => id :: subtreeIdsList cs

/-- Ids of a forest in registration order. -/
def subtreeIdsList : List SModelElement → List String
  | [] => []
  | c :: rest => subtreeIds c ++ subtreeIdsList rest

end

/-- `children.splice(i, 0, x)` for `0 ≤ i`: insert at position `i`
(appending when `i` reaches past the end, as splice clamps). -/
def insertAt {β : Type} : Nat → β → List β → List β
  | 0, x, l => x :: l
  | _ + 1, x, [] => [x]
  | n + 1, x, a :: l => a :: insertAt n x l

/-- Outcome of `SParentElement.add`: the parent's children sequence, whether
the child's `parent` reference was set to this parent, the tree index, and
the error thrown (if any). On a throw the earlier mutations persist. -/
inductive POut where
  | ret (children : List SModelElement) (parentSet : Bool) (index : SModelIndex)
        (error : Option SError)
  | diverge
deriving DecidableEq

/-- `SParentElement.add(child, i?)`: append or bounds-checked insert into
`children`, then set the child's parent reference, then register the child
subtree in the root's index (which may throw `DuplicateIdentifier`,
leaving the structural insertion in place). -/
def parentAdd (children : List SModelElement) (idx : SModelIndex)
    (c : SModelElement) (i : Option Int) (rand : Nat → Fin 36)
    (pos fuel : Nat) : POut :=
  match i with
  | none =>
    match indexAdd rand fuel idx c pos with
    | .ok idx' _ _ => .ret (children ++ [c]) true idx' none
    | .err idx' _ e => .ret (children ++ [c]) true idx' (some e)
    | .diverge => .diverge
  | some n =>
    if n < 0 ∨ n > (children.length : Int) then
      .ret children false idx (some (.indexOutOfBounds n))
    else
      match indexAdd rand fuel idx c pos with
      | .ok idx' _ _ => .ret (insertAt n.toNat c children) true idx' none
      | .err idx' _ e => .ret (insertAt n.toNat c children) true idx' (some e)
      | .diverge => .diverge

/-- Whether a `SParentElement.add` outcome is a thrown `IndexOutOfBounds`. -/
def POut.isIndexOutOfBounds : POut → Bool
  | .ret _ _ _ (some (.indexOutOfBounds _)) => true
  | _ => false

/-- `SParentElement.move(child, newIndex)`: look the child up with
`indexOf` (throwing `ChildNotFound` when absent), bounds-check `newIndex`
against `0..length-1`, then splice the child out and back in at
`newIndex`. Touches neither parent references nor the index. -/
def parentMove (children : List SModelElement) (c : SModelElement)
    (newIndex : Int) : List SModelElement × Option SError :=
  if children.contains c then
    if newIndex < 0 ∨ newIndex > (children.length : Int) - 1 then
      (children, some (.indexOutOfBounds newIndex))
    else
      let i := children.findIdx (fun x => x == c)
      (insertAt newIndex.toNat c (children.eraseIdx i), none)
  else
    (children, some (.childNotFound c.id))

/-- A parent's mutable state as seen by one structural operation: its
children sequence and the root's index. -/
structure PState where
  children : List SModelElement
  index : SModelIndex
deriving DecidableEq

/-- `move` lifted to the full parent state: only `children` is touched. -/
def moveOp (s : PState) (c : SModelElement) (newIndex : Int) :
    PState × Option SError :=
  let r := parentMove s.children c newIndex
  (⟨r.1, s.index⟩, r.2)

/-- The three output channels of the update scheduler. -/
inductive Channel where
  | hidden
  | primary
  | popup
deriving DecidableEq

/-- The state of `ViewerCache`: one pending-snapshot slot per channel,
plus the number of frame callbacks currently armed via
`syncer.onEndOfNextFrame` and not yet fired. -/
structure ViewerCache (α : Type) where
  cachedModelRoot : Option α
  cachedHiddenModelRoot : Option α
  cachedPopup : Option α
  pending : Nat
deriving DecidableEq

/-- `ViewerCache.isCacheEmpty`. -/
def ViewerCache.isCacheEmpty {α : Type} (s : ViewerCache α) : Bool :=
  s.cachedModelRoot.isNone && s.cachedHiddenModelRoot.isNone &&
    s.cachedPopup.isNone

/-- `ViewerCache.update(model)`: record whether the cache was empty,
overwrite the primary slot, and arm a frame callback if it was. -/
def ViewerCache.update {α : Type} (s : ViewerCache α) (m : α) : ViewerCache α :=
  let wasEmpty := s.isCacheEmpty
  let s' := { s with cachedModelRoot := some m }
  if wasEmpty then { s' with pending := s'.pending + 1 } else s'

/-- `ViewerCache.updateHidden(hiddenModel)`. -/
def ViewerCache.updateHidden {α : Type} (s : ViewerCache α) (m : α) :
    ViewerCache α :=
  let wasEmpty := s.isCacheEmpty
  let s' := { s with cachedHiddenModelRoot := some m }
  if wasEmpty then { s' with pending := s'.pending + 1 } else s'

/-- `ViewerCache.updatePopup(model)`. -/
def ViewerCache.updatePopup {α : Type} (s : ViewerCache α) (m : α) :
    ViewerCache α :=
  let wasEmpty := s.isCacheEmpty
  let s' := { s with cachedPopup := some m }
  if wasEmpty then { s' with pending := s'.pending + 1 } else s'

/-- One of the three scheduler entry points, for reasoning about arbitrary
call sequences. -/
inductive UpdateOp (α : Type) where
  | update (m : α)
  | updateHidden (m : α)
  | updatePopup (m : α)

/-- Apply one scheduler entry point. -/
def applyOp {α : Type} (s : ViewerCache α) : UpdateOp α → ViewerCache α
  | .update m => s.update m
  | .updateHidden m => s.updateHidden m
  | .updatePopup m => s.updatePopup m

/-- Apply a sequence of scheduler entry points, oldest first. -/
def applyOps {α : Type} (s : ViewerCache α) : List (UpdateOp α) → ViewerCache α
  | [] => s
  | op :: rest => applyOps (applyOp s op) rest

/-- Accumulator for one run of the flush callback: current scheduler state,
the delegate calls made so far (in order), and whether a delegate call has
thrown (an exception aborts the rest of the callback body). -/
structure FlushAcc (α : Type) where
  st : ViewerCache α
  log : List (Channel × α)
  threw : Bool

/-- The `if (this.cachedHiddenModelRoot) { ... }` block of the callback:
call `delegate.updateHidden` on the pending snapshot, then clear the slot.
A throwing delegate leaves the slot filled and aborts the callback. -/
def stepHidden {α : Type} (fail : Channel → α → Bool) (acc : FlushAcc α) :
    FlushAcc α :=
  if acc.threw then acc else
  match acc.st.cachedHiddenModelRoot with
  | none => acc
  | some m =>
    if fail .hidden m then
      { acc with log := acc.log ++ [(.hidden, m)], threw := true }
    else
      { acc with st := { acc.st with cachedHiddenModelRoot := none },
                 log := acc.log ++ [(.hidden, m)] }

/-- The `if (this.cachedModelRoot) { ... }` block of the callback. -/
def stepPrimary {α : Type} (fail : Channel → α → Bool) (acc : FlushAcc α) :
    FlushAcc α :=
  if acc.threw then acc else
  match acc.st.cachedModelRoot with
  | none => acc
  | some m =>
    if fail .primary m then
      { acc with log := acc.log ++ [(.primary, m)], threw := true }
    else
      { acc with st := { acc.st with cachedModelRoot := none },
                 log := acc.log ++ [(.primary, m)] }

/-- The `if (this.cachedPopup) { ... }` block of the callback. -/
def stepPopup {α : Type} (fail : Channel → α → Bool) (acc : FlushAcc α) :
    FlushAcc α :=
  if acc.threw then acc else
  match acc.st.cachedPopup with
  | none => acc
  | some m =>
    if fail .popup m then
      { acc with log := acc.log ++ [(.popup, m)], threw := true }
    else
      { acc with st := { acc.st with cachedPopup := none },
                 log := acc.log ++ [(.popup, m)] }

/-- The armed callback of `scheduleUpdate` firing at the frame boundary:
the callback is consumed (`pending` drops by one) and the three channel
blocks run in order hidden, primary, popup. `fail ch m` says whether the
delegate call for snapshot `m` on channel `ch` throws. -/
def flushCallback {α : Type} (fail : Channel → α → Bool) (s : ViewerCache α) :
    FlushAcc α :=
  stepPopup fail (stepPrimary fail (stepHidden fail
    ⟨{ s with pending := s.pending - 1 }, [], false⟩))

/-- A delegate that never throws. -/
def noFail {α : Type} : Channel → α → Bool := fun _ _ => false

/-- The scheduler's initial state: all slots empty, nothing armed. -/
def initCache (α : Type) : ViewerCache α := ⟨none, none, none, 0⟩

/-- The pending snapshots of a slot as a delivery list. -/
def optLog {α : Type} (ch : Channel) : Option α → List (Channel × α)
  | none => []
  | some m => [(ch, m)]

mutual

/-- The `(id, element)` entries that registering a subtree appends to an
index none of whose ids collide, in registration order. -/
def registrations : SModelElement → List (String × SModelElement)
  | .mk t i cs => (i, .mk t i cs) :: registrationsList cs

/-- Registration entries of a forest. -/
def registrationsList : List SModelElement → List (String × SModelElement)
  | [] => []
  | c :: rest => registrations c ++ registrationsList rest

end

/-- Whether an error is a `DuplicateIdentifier`. -/
def SError.isDup : SError → Bool
  | .duplicateIdentifier _ => true
  | _ => false

/-- An `SModelIndex.add` outcome loses no registration relative to the
index it started from: every id registered before is still registered,
whether the call returned or threw. -/
def AddRes.keeps (r : AddRes) (idx : SModelIndex) (j : String) : Prop :=
  match r with
  | .ok i _ _ => idx.has j = true → i.has j = true
  | .err i _ _ => idx.has j = true → i.has j = true
  | .diverge => True

/-- `AddRes.keeps` for the children loop. -/
def AddResL.keeps (r : AddResL) (idx : SModelIndex) (j : String) : Prop :=
  match r with
  | .ok i _ _ => idx.has j = true → i.has j = true
  | .err i _ _ => idx.has j = true → i.has j = true
  | .diverge => True

/-- A fixed random stream for concrete evaluations: position `n` yields
character number `n mod 36` of the alphabet. -/
def rand0 : Nat → Fin 36 := fun n => ⟨n % 36, Nat.mod_lt _ (by decide)⟩

/-- A leaf element with id `"a"`. -/
def exA : SModelElement := .mk "t" "a" []

/-- A leaf element with id `"x"`. -/
def exX : SModelElement := .mk "t" "x" []

/-- An element with id `"a"` whose only child has id `"x"`. -/
def exAX : SModelElement := .mk "t" "a" [exX]

/-- A one-entry index holding `exA` under `"a"`. -/
def idxA : SModelIndex := [("a", exA)]

/-- A one-entry index holding `exX` under `"x"`. -/
def idxX : SModelIndex := [("x", exX)]

/-! ## Scheduler lemmas -/

theorem applyOp_pending {α : Type} (s : ViewerCache α) (op : UpdateOp α) :
    (applyOp s op).pending =
      if s.isCacheEmpty then s.pending + 1 else s.pending := by
  cases op <;>
    simp only [applyOp, ViewerCache.update, ViewerCache.updateHidden,
      ViewerCache.updatePopup] <;>
    split <;> rfl

theorem applyOp_not_empty {α : Type} (s : ViewerCache α) (op : UpdateOp α) :
    (applyOp s op).isCacheEmpty = false := by
  cases op <;>
    simp only [applyOp, ViewerCache.update, ViewerCache.updateHidden,
      ViewerCache.updatePopup] <;>
    split <;> simp [ViewerCache.isCacheEmpty]

theorem applyOps_pending_le {α : Type} (ops : List (UpdateOp α)) :
    ∀ s : ViewerCache α,
      ((s.isCacheEmpty = true → s.pending = 0) ∧ s.pending ≤ 1) →
      (applyOps s ops).pending ≤ 1 := by
  induction ops with
  | nil => exact fun s h => h.2
  | cons op rest ih =>
    intro s h
    rw [applyOps]
    apply ih
    constructor
    · intro he
      rw [applyOp_not_empty] at he
      cases he
    · rw [applyOp_pending]
      split
      · rename_i he
        rw [h.1 he]
      · exact h.2

/-- C4: a scheduler entry point arms a frame callback exactly when all
three slots were empty immediately before it overwrites its slot; hence
starting from a flushed or initial state (all slots empty, nothing
armed), any sequence of `update`/`updateHidden`/`updatePopup` calls
leaves at most one callback pending. -/
theorem c4_single_pending_callback {α : Type} (s : ViewerCache α)
    (op : UpdateOp α) (t : ViewerCache α) (ops : List (UpdateOp α))
    (_hempty : t.isCacheEmpty = true) (hidle : t.pending = 0) :
    ((applyOp s op).pending = s.pending + 1 ↔ s.isCacheEmpty = true) ∧
    (applyOps t ops).pending ≤ 1 := by
  constructor
  · constructor
    · intro h
      by_contra hne
      rw [applyOp_pending, if_neg hne] at h
      omega
    · intro h
      rw [applyOp_pending, if_pos h]
  · exact applyOps_pending_le ops t ⟨fun _ => hidle, by omega⟩

theorem c4_single_pending_callback_witness :
    ((applyOp (initCache Nat) (UpdateOp.update 5)).pending =
        (initCache Nat).pending + 1 ↔ (initCache Nat).isCacheEmpty = true) ∧
    (applyOps (initCache Nat)
      [UpdateOp.update 2, UpdateOp.updateHidden 3, UpdateOp.updatePopup 4]).pending ≤ 1 :=
  c4_single_pending_callback (initCache Nat) (UpdateOp.update 5) (initCache Nat)
    [UpdateOp.update 2, UpdateOp.updateHidden 3, UpdateOp.updatePopup 4]
    (by decide) (by decide)

/-- C5: when no delegate call throws, the armed callback visits the
channels in the fixed order hidden, primary, popup, delivers each pending
snapshot exactly once, skips empty channels, and leaves every slot
empty. -/
theorem c5_flush_in_order {α : Type} (s : ViewerCache α) :
    flushCallback noFail s =
      ⟨⟨none, none, none, s.pending - 1⟩,
        optLog Channel.hidden s.cachedHiddenModelRoot ++
          optLog Channel.primary s.cachedModelRoot ++
          optLog Channel.popup s.cachedPopup, false⟩ := by
  obtain ⟨a, b, c, p⟩ := s
  cases a <;> cases b <;> cases c <;>
    simp [flushCallback, stepHidden, stepPrimary, stepPopup, noFail, optLog]

/-- C6: from the empty scheduler, `update A` then `update B` before the
frame boundary arms exactly one callback, and its flush delivers only
`B` on the primary channel; `A` is discarded. -/
theorem c6_last_write_wins {α : Type} (A B : α) :
    ((initCache α).update A).update B = ⟨some B, none, none, 1⟩ ∧
    flushCallback noFail (((initCache α).update A).update B) =
      ⟨initCache α, [(Channel.primary, B)], false⟩ := by
  constructor <;>
    simp [initCache, ViewerCache.update, ViewerCache.isCacheEmpty,
      flushCallback, stepHidden, stepPrimary, stepPopup, noFail]

theorem stepHidden_of_threw {α : Type} (fail : Channel → α → Bool)
    (a : FlushAcc α) (h : a.threw = true) : stepHidden fail a = a := by
  obtain ⟨st, log, thr⟩ := a
  subst h
  simp [stepHidden]

theorem stepPrimary_of_threw {α : Type} (fail : Channel → α → Bool)
    (a : FlushAcc α) (h : a.threw = true) : stepPrimary fail a = a := by
  obtain ⟨st, log, thr⟩ := a
  subst h
  simp [stepPrimary]

theorem stepPopup_of_threw {α : Type} (fail : Channel → α → Bool)
    (a : FlushAcc α) (h : a.threw = true) : stepPopup fail a = a := by
  obtain ⟨st, log, thr⟩ := a
  subst h
  simp [stepPopup]

theorem stepHidden_threw_stuck {α : Type} (fail : Channel → α → Bool)
    (a : FlushAcc α) (h0 : a.threw = false)
    (h1 : (stepHidden fail a).threw = true) :
    (stepHidden fail a).st = a.st ∧
    (stepHidden fail a).st.isCacheEmpty = false := by
  obtain ⟨⟨s1, s2, s3, p⟩, log, thr⟩ := a
  subst h0
  cases s2 with
  | none => simp [stepHidden] at h1
  | some m =>
    by_cases hf : fail Channel.hidden m
    · simp [stepHidden, hf, ViewerCache.isCacheEmpty]
    · simp [stepHidden, hf] at h1

theorem stepPrimary_threw_stuck {α : Type} (fail : Channel → α → Bool)
    (a : FlushAcc α) (h0 : a.threw = false)
    (h1 : (stepPrimary fail a).threw = true) :
    (stepPrimary fail a).st = a.st ∧
    (stepPrimary fail a).st.isCacheEmpty = false := by
  obtain ⟨⟨s1, s2, s3, p⟩, log, thr⟩ := a
  subst h0
  cases s1 with
  | none => simp [stepPrimary] at h1
  | some m =>
    by_cases hf : fail Channel.primary m
    · simp [stepPrimary, hf, ViewerCache.isCacheEmpty]
    · simp [stepPrimary, hf] at h1

theorem stepPopup_threw_stuck {α : Type} (fail : Channel → α → Bool)
    (a : FlushAcc α) (h0 : a.threw = false)
    (h1 : (stepPopup fail a).threw = true) :
    (stepPopup fail a).st = a.st ∧
    (stepPopup fail a).st.isCacheEmpty = false := by
  obtain ⟨⟨s1, s2, s3, p⟩, log, thr⟩ := a
  subst h0
  cases s3 with
  | none => simp [stepPopup] at h1
  | some m =>
    by_cases hf : fail Channel.popup m
    · simp [stepPopup, hf, ViewerCache.isCacheEmpty]
    · simp [stepPopup, hf] at h1

theorem flush_threw_not_empty {α : Type} (fail : Channel → α → Bool)
    (s : ViewerCache α) (h : (flushCallback fail s).threw = true) :
    (flushCallback fail s).st.isCacheEmpty = false := by
  rw [flushCallback] at h ⊢
  by_cases h1 : (stepHidden fail ⟨{ s with pending := s.pending - 1 }, [], false⟩).threw = true
  · obtain ⟨_, hne⟩ := stepHidden_threw_stuck fail _ rfl h1
    rw [stepPrimary_of_threw fail _ h1, stepPopup_of_threw fail _ h1]
    exact hne
  · rw [Bool.not_eq_true] at h1
    by_cases h2 : (stepPrimary fail (stepHidden fail
        ⟨{ s with pending := s.pending - 1 }, [], false⟩)).threw = true
    · obtain ⟨_, hne⟩ := stepPrimary_threw_stuck fail _ h1 h2
      rw [stepPopup_of_threw fail _ h2]
      exact hne
    · rw [Bool.not_eq_true] at h2
      obtain ⟨_, hne⟩ := stepPopup_threw_stuck fail _ h2 h
      exact hne

/-- C3 counterexample: with one hidden snapshot pending and a delegate
whose `updateHidden` throws, the flush leaves the hidden slot filled
(`some 0` stranded) and a subsequent `update` call fails to arm a new
callback (`pending` stays 0): the scheduler state is corrupted, contrary
to the claim. -/
theorem c3_counterexample :
    (flushCallback (fun ch (_ : Nat) => ch == Channel.hidden)
        ((initCache Nat).updateHidden 0)).threw = true ∧
    (flushCallback (fun ch (_ : Nat) => ch == Channel.hidden)
        ((initCache Nat).updateHidden 0)).st.cachedHiddenModelRoot = some 0 ∧
    ((flushCallback (fun ch (_ : Nat) => ch == Channel.hidden)
        ((initCache Nat).updateHidden 0)).st.update 1).pending = 0 := by decide

/-- C3 (amended): when some delegate call throws during a flush, the
callback aborts with at least one slot still filled, and from that state
no `update`/`updateHidden`/`updatePopup` call ever arms a new callback:
the retained snapshots are stranded rather than the state staying
serviceable. -/
theorem c3_throwing_delegate_strands {α : Type} (fail : Channel → α → Bool)
    (s : ViewerCache α) (op : UpdateOp α)
    (h : (flushCallback fail s).threw = true) :
    (flushCallback fail s).st.isCacheEmpty = false ∧
    (applyOp (flushCallback fail s).st op).pending =
      (flushCallback fail s).st.pending :=
  have hne := flush_threw_not_empty fail s h
  ⟨hne, by rw [applyOp_pending, if_neg (by simp [hne])]⟩

theorem c3_throwing_delegate_strands_witness :
    (flushCallback (fun ch (_ : Nat) => ch == Channel.hidden)
        ((initCache Nat).updateHidden 7)).st.isCacheEmpty = false ∧
    (applyOp (flushCallback (fun ch (_ : Nat) => ch == Channel.hidden)
        ((initCache Nat).updateHidden 7)).st (UpdateOp.update 9)).pending =
      (flushCallback (fun ch (_ : Nat) => ch == Channel.hidden)
        ((initCache Nat).updateHidden 7)).st.pending :=
  c3_throwing_delegate_strands (fun ch (_ : Nat) => ch == Channel.hidden)
    ((initCache Nat).updateHidden 7) (UpdateOp.update 9) (by decide)

/-! ## List lemmas for splice-based insertion and relocation -/

theorem insertAt_perm {β : Type} :
    ∀ (n : Nat) (x : β) (l : List β), (insertAt n x l).Perm (x :: l)
  | 0, x, l => by rw [insertAt]
  | _ + 1, x, [] => by rw [insertAt]
  | n + 1, x, a :: l =>
    List.Perm.trans ((insertAt_perm n x l).cons a) (List.Perm.swap x a l)

theorem cons_eraseIdx_perm {β : Type} :
    ∀ (l : List β) (i : Nat) (x : β), l[i]? = some x →
      (x :: l.eraseIdx i).Perm l
  | [], i, x, h => by rw [List.getElem?_nil] at h; cases h
  | a :: l, 0, x, h => by
    rw [List.getElem?_cons_zero] at h
    injection h with h
    subst h
    rw [List.eraseIdx_cons_zero]
  | a :: l, i + 1, x, h => by
    rw [List.getElem?_cons_succ] at h
    rw [List.eraseIdx_cons_succ]
    exact List.Perm.trans (List.Perm.swap a x _)
      ((cons_eraseIdx_perm l i x h).cons a)

theorem insertAt_eraseIdx_self {β : Type} :
    ∀ (l : List β) (i : Nat) (x : β), l[i]? = some x →
      insertAt i x (l.eraseIdx i) = l
  | [], i, x, h => by rw [List.getElem?_nil] at h; cases h
  | a :: l, 0, x, h => by
    rw [List.getElem?_cons_zero] at h
    injection h with h
    subst h
    rw [List.eraseIdx_cons_zero, insertAt]
  | a :: l, i + 1, x, h => by
    rw [List.getElem?_cons_succ] at h
    rw [List.eraseIdx_cons_succ, insertAt, insertAt_eraseIdx_self l i x h]

theorem getElem?_findIdx_of_contains {β : Type} [BEq β] [LawfulBEq β] :
    ∀ (l : List β) (c : β), l.contains c = true →
      l[l.findIdx (fun x => x == c)]? = some c
  | [], c, h => by simp at h
  | a :: l, c, h => by
    by_cases ha : a = c
    · subst ha
      rw [List.findIdx_cons]
      simp
    · have hb : (a == c) = false := beq_false_of_ne ha
      have hb' : (c == a) = false := beq_false_of_ne (Ne.symm ha)
      rw [List.contains_cons, hb'] at h
      simp only [Bool.false_or] at h
      rw [List.findIdx_cons, hb]
      simp only [cond_false]
      rw [List.getElem?_cons_succ]
      exact getElem?_findIdx_of_contains l c h

/-! ## Error shapes of `SModelIndex.add` -/

mutual

theorem indexAdd_err_isDup : ∀ (rand : Nat → Fin 36) (fuel : Nat)
    (idx : SModelIndex) (e : SModelElement) (pos : Nat) (i : SModelIndex)
    (p : Nat) (er : SError),
    indexAdd rand fuel idx e pos = .err i p er → er.isDup = true
  | rand, fuel, idx, .mk ty id cs, pos, i, p, er => by
    intro h
    rw [indexAdd] at h
    split at h
    · split at h
      · cases h
      · rename_i nid pos' heq
        split at h
        · cases h
        · rename_i heqc
          injection h with h1 h2 h3
          subst h3
          exact indexAddChildren_err_isDup rand fuel _ cs _ _ _ _ heqc
        · cases h
    · split at h
      · injection h with h1 h2 h3
        subst h3
        rfl
      · split at h
        · cases h
        · rename_i heqc
          injection h with h1 h2 h3
          subst h3
          exact indexAddChildren_err_isDup rand fuel _ cs _ _ _ _ heqc
        · cases h

theorem indexAddChildren_err_isDup : ∀ (rand : Nat → Fin 36) (fuel : Nat)
    (idx : SModelIndex) (cs : List SModelElement) (pos : Nat)
    (i : SModelIndex) (p : Nat) (er : SError),
    indexAddChildren rand fuel idx cs pos = .err i p er → er.isDup = true
  | rand, fuel, idx, [], pos, i, p, er => by
    intro h
    rw [indexAddChildren] at h
    cases h
  | rand, fuel, idx, c :: rest, pos, i, p, er => by
    intro h
    rw [indexAddChildren] at h
    split at h
    · rename_i idx' c' pos' heq
      split at h
      · cases h
      · rename_i heqc
        injection h with h1 h2 h3
        subst h3
        exact indexAddChildren_err_isDup rand fuel idx' rest pos' _ _ _ heqc
      · cases h
    · rename_i heq
      injection h with h1 h2 h3
      subst h3
      exact indexAdd_err_isDup rand fuel idx c pos _ _ _ heq
    · cases h

end

/-- C7: raises-iff for position arguments. `add` with an explicit index
throws `IndexOutOfBounds` exactly when `i < 0 ∨ i > children.length`,
and appending never bounds-fails; `move` throws `ChildNotFound` exactly
when the child is absent, and with the child present throws
`IndexOutOfBounds` exactly when `newIndex < 0 ∨ newIndex > length-1`. -/
theorem c7_position_errors (children : List SModelElement)
    (idx : SModelIndex) (c : SModelElement) (n : Int) (rand : Nat → Fin 36)
    (pos fuel : Nat) :
    (POut.isIndexOutOfBounds (parentAdd children idx c (some n) rand pos fuel) = true ↔
      (n < 0 ∨ n > (children.length : Int))) ∧
    POut.isIndexOutOfBounds (parentAdd children idx c none rand pos fuel) = false ∧
    ((parentMove children c n).2 = some (.childNotFound c.id) ↔
      children.contains c = false) ∧
    (children.contains c = true →
      ((parentMove children c n).2 = some (.indexOutOfBounds n) ↔
        (n < 0 ∨ n > (children.length : Int) - 1))) := by
  refine ⟨?_, ?_, ?_, ?_⟩
  · rw [parentAdd]
    by_cases hb : n < 0 ∨ n > (children.length : Int)
    · rw [if_pos hb]
      simp [POut.isIndexOutOfBounds, hb]
    · rw [if_neg hb]
      cases hr : indexAdd rand fuel idx c pos with
      | ok i e p => simp [POut.isIndexOutOfBounds, hb]
      | err i p e =>
        have hd := indexAdd_err_isDup rand fuel idx c pos i p e hr
        cases e <;> simp_all [POut.isIndexOutOfBounds, SError.isDup]
      | diverge => simp [POut.isIndexOutOfBounds, hb]
  · rw [parentAdd]
    cases hr : indexAdd rand fuel idx c pos with
    | ok i e p => rfl
    | err i p e =>
      have hd := indexAdd_err_isDup rand fuel idx c pos i p e hr
      cases e <;> simp_all [POut.isIndexOutOfBounds, SError.isDup]
    | diverge => rfl
  · rw [parentMove]
    by_cases hc : children.contains c = true
    · have hm : c ∈ children := by simpa using hc
      rw [if_pos hc]
      by_cases hb : n < 0 ∨ n > (children.length : Int) - 1
      · rw [if_pos hb]
        simp [hm]
      · rw [if_neg hb]
        simp [hm]
    · have hm : ¬ c ∈ children := by simpa using hc
      rw [if_neg hc]
      simp [hm]
  · intro hc
    rw [parentMove, if_pos hc]
    by_cases hb : n < 0 ∨ n > (children.length : Int) - 1
    · rw [if_pos hb]
      simp [hb]
    · rw [if_neg hb]
      simp [hb]

theorem c7_position_errors_witness :
    (POut.isIndexOutOfBounds (parentAdd [exA] [] exA (some 0) rand0 0 1) = true ↔
      ((0 : Int) < 0 ∨ (0 : Int) > (([exA] : List SModelElement).length : Int))) ∧
    POut.isIndexOutOfBounds (parentAdd [exA] [] exA none rand0 0 1) = false ∧
    ((parentMove [exA] exA 0).2 = some (.childNotFound exA.id) ↔
      ([exA] : List SModelElement).contains exA = false) ∧
    ((parentMove [exA] exA 0).2 = some (.indexOutOfBounds 0) ↔
      ((0 : Int) < 0 ∨ (0 : Int) > (([exA] : List SModelElement).length : Int) - 1)) :=
  ⟨(c7_position_errors [exA] [] exA 0 rand0 0 1).1,
   (c7_position_errors [exA] [] exA 0 rand0 0 1).2.1,
   (c7_position_errors [exA] [] exA 0 rand0 0 1).2.2.1,
   (c7_position_errors [exA] [] exA 0 rand0 0 1).2.2.2 (by decide)⟩

/-- C8: for an attached child and a valid target position, `move`
succeeds, leaves the index untouched, only permutes the children
sequence, and moving the child to its current position leaves the order
unchanged. -/
theorem c8_move_order_only (children : List SModelElement)
    (idx : SModelIndex) (c : SModelElement) (n : Int)
    (hc : children.contains c = true)
    (h0 : 0 ≤ n) (h1 : n ≤ (children.length : Int) - 1) :
    (moveOp ⟨children, idx⟩ c n).2 = none ∧
    (moveOp ⟨children, idx⟩ c n).1.index = idx ∧
    ((moveOp ⟨children, idx⟩ c n).1.children).Perm children ∧
    (n = (children.findIdx (fun x => x == c) : Nat) →
      (moveOp ⟨children, idx⟩ c n).1.children = children) := by
  have hg := getElem?_findIdx_of_contains children c hc
  have hb : ¬(n < 0 ∨ n > (children.length : Int) - 1) := by omega
  have hmv : parentMove children c n =
      (insertAt n.toNat c
        (children.eraseIdx (children.findIdx (fun x => x == c))), none) := by
    rw [parentMove, if_pos hc, if_neg hb]
  refine ⟨?_, ?_, ?_, ?_⟩
  · simp [moveOp, hmv]
  · simp [moveOp, hmv]
  · simp only [moveOp, hmv]
    exact (insertAt_perm _ _ _).trans (cons_eraseIdx_perm children _ c hg)
  · intro hn
    have hnt : n.toNat = children.findIdx (fun x => x == c) := by omega
    simp only [moveOp, hmv, hnt]
    exact insertAt_eraseIdx_self children _ c hg

theorem c8_move_order_only_witness :
    (moveOp ⟨[exA, exX], []⟩ exX 1).2 = none ∧
    (moveOp ⟨[exA, exX], []⟩ exX 1).1.index = [] ∧
    ((moveOp ⟨[exA, exX], []⟩ exX 1).1.children).Perm [exA, exX] ∧
    (moveOp ⟨[exA, exX], []⟩ exX 1).1.children = [exA, exX] :=
  ⟨(c8_move_order_only [exA, exX] [] exX 1 (by decide) (by decide) (by decide)).1,
   (c8_move_order_only [exA, exX] [] exX 1 (by decide) (by decide) (by decide)).2.1,
   (c8_move_order_only [exA, exX] [] exX 1 (by decide) (by decide) (by decide)).2.2.1,
   (c8_move_order_only [exA, exX] [] exX 1 (by decide) (by decide) (by decide)).2.2.2
     (by decide)⟩

/-! ## Index map lemmas -/

theorem has_append (a b : SModelIndex) (j : String) :
    SModelIndex.has (a ++ b) j = (a.has j || b.has j) :=
  List.any_append

theorem map_overwrite_has (idx : SModelIndex) (id : String) (e : SModelElement)
    (j : String) :
    SModelIndex.has
      (idx.map (fun p => if p.1 == id then (id, e) else p)) j = idx.has j := by
  induction idx with
  | nil => rfl
  | cons p rest ih =>
    simp only [List.map_cons, SModelIndex.has, List.any_cons] at ih ⊢
    rw [ih]
    by_cases hp : p.1 == id
    · rw [if_pos hp]
      have : p.1 = id := by simpa using hp
      rw [this]
    · rw [if_neg hp]

theorem set_has (idx : SModelIndex) (id : String) (e : SModelElement)
    (j : String) :
    (idx.set id e).has j = (idx.has j || (id == j)) := by
  rw [SModelIndex.set]
  by_cases hid : idx.has id = true
  · rw [if_pos hid, map_overwrite_has]
    by_cases hj : (id == j) = true
    · have : id = j := by simpa using hj
      subst this
      rw [hid, hj]
      rfl
    · rw [Bool.not_eq_true] at hj
      rw [hj, Bool.or_false]
  · rw [if_neg hid, has_append]
    simp [SModelIndex.has]

theorem set_has_mono (idx : SModelIndex) (id : String) (e : SModelElement)
    (j : String) (h : idx.has j = true) : (idx.set id e).has j = true := by
  rw [set_has, h, Bool.true_or]

theorem set_has_self (idx : SModelIndex) (id : String) (e : SModelElement) :
    (idx.set id e).has id = true := by
  rw [set_has]
  simp

theorem set_of_not_has (idx : SModelIndex) (id : String) (e : SModelElement)
    (h : idx.has id = false) : idx.set id e = idx ++ [(id, e)] := by
  rw [SModelIndex.set, if_neg (by simp [h])]

mutual

theorem indexAdd_keeps : ∀ (rand : Nat → Fin 36) (fuel : Nat)
    (idx : SModelIndex) (e : SModelElement) (pos : Nat) (j : String),
    (indexAdd rand fuel idx e pos).keeps idx j
  | rand, fuel, idx, .mk ty id cs, pos, j => by
    rw [indexAdd]
    by_cases hid : id = ""
    · rw [if_pos hid]
      cases hg : genFreshId idx rand pos fuel with
      | none => simp only [hg, AddRes.keeps]
      | some v =>
        obtain ⟨nid, pos'⟩ := v
        have hk := indexAddChildren_keeps rand fuel
          (idx.set nid (.mk ty nid cs)) cs pos' j
        simp only [hg]
        cases hc : indexAddChildren rand fuel (idx.set nid (.mk ty nid cs)) cs pos' with
        | ok idx' cs' p' =>
          rw [hc] at hk
          simp only [AddResL.keeps] at hk
          simp only [hc, AddRes.keeps]
          exact fun hj => hk (set_has_mono idx nid _ j hj)
        | err i p e =>
          rw [hc] at hk
          simp only [AddResL.keeps] at hk
          simp only [hc, AddRes.keeps]
          exact fun hj => hk (set_has_mono idx nid _ j hj)
        | diverge => simp only [hc, AddRes.keeps]
    · rw [if_neg hid]
      by_cases hhas : idx.has id = true
      · rw [if_pos hhas]
        simp only [AddRes.keeps]
        exact fun hj => hj
      · rw [if_neg hhas]
        have hk := indexAddChildren_keeps rand fuel
          (idx.set id (.mk ty id cs)) cs pos j
        cases hc : indexAddChildren rand fuel (idx.set id (.mk ty id cs)) cs pos with
        | ok idx' cs' p' =>
          rw [hc] at hk
          simp only [AddResL.keeps] at hk
          simp only [hc, AddRes.keeps]
          exact fun hj => hk (set_has_mono idx id _ j hj)
        | err i p e =>
          rw [hc] at hk
          simp only [AddResL.keeps] at hk
          simp only [hc, AddRes.keeps]
          exact fun hj => hk (set_has_mono idx id _ j hj)
        | diverge => simp only [hc, AddRes.keeps]

theorem indexAddChildren_keeps : ∀ (rand : Nat → Fin 36) (fuel : Nat)
    (idx : SModelIndex) (cs : List SModelElement) (pos : Nat) (j : String),
    (indexAddChildren rand fuel idx cs pos).keeps idx j
  | rand, fuel, idx, [], pos, j => by
    rw [indexAddChildren]
    simp only [AddResL.keeps]
    exact fun hj => hj
  | rand, fuel, idx, c :: rest, pos, j => by
    rw [indexAddChildren]
    have hk1 := indexAdd_keeps rand fuel idx c pos j
    cases h1 : indexAdd rand fuel idx c pos with
    | ok idx' c' pos' =>
      rw [h1] at hk1
      simp only [AddRes.keeps] at hk1
      have hk2 := indexAddChildren_keeps rand fuel idx' rest pos' j
      cases h2 : indexAddChildren rand fuel idx' rest pos' with
      | ok idx'' rest' pos'' =>
        rw [h2] at hk2
        simp only [AddResL.keeps] at hk2
        simp only [h1, h2, AddResL.keeps]
        exact fun hj => hk2 (hk1 hj)
      | err i p e =>
        rw [h2] at hk2
        simp only [AddResL.keeps] at hk2
        simp only [h1, h2, AddResL.keeps]
        exact fun hj => hk2 (hk1 hj)
      | diverge => simp only [h1, h2, AddResL.keeps]
    | err i p e =>
      rw [h1] at hk1
      simp only [AddRes.keeps] at hk1
      simp only [h1, AddResL.keeps]
      exact hk1
    | diverge => simp only [h1, AddResL.keeps]

end

mutual

theorem registrations_keys : ∀ e : SModelElement,
    (registrations e).map Prod.fst = subtreeIds e
  | .mk t i cs => by
    rw [registrations, subtreeIds, List.map_cons, registrationsList_keys cs]

theorem registrationsList_keys : ∀ cs : List SModelElement,
    (registrationsList cs).map Prod.fst = subtreeIdsList cs
  | [] => rfl
  | c :: rest => by
    rw [registrationsList, subtreeIdsList, List.map_append,
      registrations_keys c, registrationsList_keys rest]

end

theorem registrations_length (e : SModelElement) :
    (registrations e).length = (subtreeIds e).length := by
  rw [← registrations_keys e, List.length_map]

theorem has_eq_keys_any (l : SModelIndex) (j : String) :
    l.has j = (l.map Prod.fst).any (fun x => x == j) := by
  induction l with
  | nil => rfl
  | cons p rest ih =>
    simp only [SModelIndex.has, List.map_cons, List.any_cons] at ih ⊢
    rw [ih]

theorem registrations_has (e : SModelElement) (j : String) :
    SModelIndex.has (registrations e) j =
      (subtreeIds e).any (fun x => x == j) := by
  rw [has_eq_keys_any, registrations_keys]

mutual

theorem indexAdd_fresh : ∀ (rand : Nat → Fin 36) (fuel : Nat)
    (idx : SModelIndex) (e : SModelElement) (pos : Nat),
    (∀ id ∈ subtreeIds e, idx.has id = false) →
    (subtreeIds e).Nodup →
    (∀ id ∈ subtreeIds e, id ≠ "") →
    indexAdd rand fuel idx e pos = .ok (idx ++ registrations e) e pos
  | rand, fuel, idx, .mk ty id cs, pos => by
    intro hfresh hnodup hne
    rw [subtreeIds] at hfresh hnodup hne
    have hid : id ≠ "" := hne id (List.mem_cons_self id _)
    have hhas : idx.has id = false := hfresh id (List.mem_cons_self id _)
    have hnotin : ¬ id ∈ subtreeIdsList cs := (List.nodup_cons.mp hnodup).1
    rw [indexAdd, if_neg hid, if_neg (by simp [hhas])]
    rw [set_of_not_has idx id (.mk ty id cs) hhas]
    have hfresh' : ∀ jd ∈ subtreeIdsList cs,
        SModelIndex.has (idx ++ [(id, .mk ty id cs)]) jd = false := by
      intro jd hjd
      rw [has_append, hfresh jd (List.mem_cons_of_mem id hjd)]
      have : id ≠ jd := fun he => hnotin (he ▸ hjd)
      simp [SModelIndex.has, beq_false_of_ne this]
    have hrec := indexAddChildren_fresh rand fuel (idx ++ [(id, .mk ty id cs)])
      cs pos hfresh' (List.nodup_cons.mp hnodup).2
      (fun jd hjd => hne jd (List.mem_cons_of_mem id hjd))
    rw [hrec]
    rw [registrations]
    simp

theorem indexAddChildren_fresh : ∀ (rand : Nat → Fin 36) (fuel : Nat)
    (idx : SModelIndex) (cs : List SModelElement) (pos : Nat),
    (∀ id ∈ subtreeIdsList cs, idx.has id = false) →
    (subtreeIdsList cs).Nodup →
    (∀ id ∈ subtreeIdsList cs, id ≠ "") →
    indexAddChildren rand fuel idx cs pos = .ok (idx ++ registrationsList cs) cs pos
  | rand, fuel, idx, [], pos => by
    intro _ _ _
    rw [indexAddChildren, registrationsList]
    simp
  | rand, fuel, idx, c :: rest, pos => by
    intro hfresh hnodup hne
    rw [subtreeIdsList] at hfresh hnodup hne
    obtain ⟨hn1, hn2, hdisj⟩ := List.nodup_append.mp hnodup
    have h1 := indexAdd_fresh rand fuel idx c pos
      (fun jd hjd => hfresh jd (List.mem_append_left _ hjd)) hn1
      (fun jd hjd => hne jd (List.mem_append_left _ hjd))
    have hfresh' : ∀ jd ∈ subtreeIdsList rest,
        SModelIndex.has (idx ++ registrations c) jd = false := by
      intro jd hjd
      rw [has_append, hfresh jd (List.mem_append_right _ hjd),
        registrations_has]
      simp only [Bool.false_or]
      rw [List.any_eq_false]
      intro x hx
      have hxne : x ≠ jd := by
        intro he
        subst he
        exact hdisj hx hjd
      exact fun hh => hxne (eq_of_beq hh)
    have h2 := indexAddChildren_fresh rand fuel (idx ++ registrations c) rest pos
      hfresh' hn2 (fun jd hjd => hne jd (List.mem_append_right _ hjd))
    rw [indexAddChildren]
    simp only [h1, h2, registrationsList]
    simp [List.append_assoc]
end

theorem indexAdd_dup (rand : Nat → Fin 36) (fuel : Nat) (idx : SModelIndex)
    (e : SModelElement) (pos : Nat) (hne : e.id ≠ "")
    (hdup : idx.has e.id = true) :
    indexAdd rand fuel idx e pos = .err idx pos (.duplicateIdentifier e.id) := by
  obtain ⟨ty, id, cs⟩ := e
  simp only [SModelElement.id] at hne hdup ⊢
  rw [indexAdd, if_neg hne, if_pos hdup]

/-- C1 counterexample: two concrete runs of `SParentElement.add`, one
colliding on the child's own id (`exA` with id `"a"` against an index
holding `"a"`), one colliding on an id inside the child's subtree
(`exAX = a(children:[x])` against an index holding `"x"`). Both throw
`DuplicateIdentifier`, yet in both the resulting state has the child in
the children sequence with its parent reference set — and in the
subtree case the index is changed too (`"a"` stays registered) — not
the pre-call state the claim requires. -/
theorem c1_counterexample :
    (parentAdd [] idxA exA none rand0 0 1 =
      .ret [exA] true idxA (some (.duplicateIdentifier "a")) ∧
    POut.ret [exA] true idxA (some (.duplicateIdentifier "a")) ≠
      POut.ret [] false idxA (some (.duplicateIdentifier "a"))) ∧
    (parentAdd [] idxX exAX none rand0 0 1 =
      .ret [exAX] true [("x", exX), ("a", exAX)]
        (some (.duplicateIdentifier "x")) ∧
    POut.ret [exAX] true [("x", exX), ("a", exAX)]
        (some (.duplicateIdentifier "x")) ≠
      POut.ret [] false idxX (some (.duplicateIdentifier "x"))) := by
  decide

/-- C1 (amended): whenever registering the child's subtree throws — a
`DuplicateIdentifier`, whether the collision is on the child's own id or
on an id deeper in its subtree — `SParentElement.add` fails but is not
rolled back: the child stays appended/inserted in the children sequence,
its parent reference stays set, and the index is left exactly as the
partial registration produced it (structural insertion and parent
assignment precede index registration); when the collision is on the
child's own (non-empty) id, the index is the unchanged pre-call index
and the error names that id. -/
theorem c1_add_failure_keeps_insertion (children : List SModelElement)
    (idx : SModelIndex) (c : SModelElement) (n : Int) (rand : Nat → Fin 36)
    (pos fuel : Nat) (i : SModelIndex) (p : Nat) (er : SError)
    (herr : indexAdd rand fuel idx c pos = .err i p er)
    (hn : ¬(n < 0 ∨ n > (children.length : Int))) :
    parentAdd children idx c none rand pos fuel =
      .ret (children ++ [c]) true i (some er) ∧
    parentAdd children idx c (some n) rand pos fuel =
      .ret (insertAt n.toNat c children) true i (some er) ∧
    er.isDup = true ∧
    (c.id ≠ "" → idx.has c.id = true →
      i = idx ∧ er = .duplicateIdentifier c.id) := by
  refine ⟨?_, ?_, indexAdd_err_isDup rand fuel idx c pos i p er herr, ?_⟩
  · simp only [parentAdd, herr]
  · simp only [parentAdd]
    rw [if_neg hn]
    simp only [herr]
  · intro hne hdup
    have hd := indexAdd_dup rand fuel idx c pos hne hdup
    rw [herr] at hd
    injection hd with h1 h2 h3
    exact ⟨h1, h3⟩

theorem c1_add_failure_keeps_insertion_witness :
    (parentAdd [] idxA exA none rand0 0 1 =
      .ret ([] ++ [exA]) true idxA (some (.duplicateIdentifier "a")) ∧
    parentAdd [] idxA exA (some 0) rand0 0 1 =
      .ret (insertAt (0 : Int).toNat exA []) true idxA
        (some (.duplicateIdentifier "a")) ∧
    SError.isDup (.duplicateIdentifier "a") = true ∧
    (idxA = idxA ∧
      (SError.duplicateIdentifier "a" : SError) =
        .duplicateIdentifier exA.id)) :=
  have h := c1_add_failure_keeps_insertion [] idxA exA 0 rand0 0 1 idxA 0
    (.duplicateIdentifier "a") (by decide) (by decide)
  ⟨h.1, h.2.1, h.2.2.1, h.2.2.2 (by decide) (by decide)⟩

/-- C2 counterexample: the index `{"x"}` receives the subtree
`a(children:[x])`; the call throws `DuplicateIdentifier "x"`, but the
index afterwards also holds `"a"` — it does not equal its pre-call
contents (the colliding element's ancestor stays registered). -/
theorem c2_counterexample :
    indexAdd rand0 1 idxX exAX 0 =
      .err [("x", exX), ("a", exAX)] 0 (.duplicateIdentifier "x") ∧
    [("x", exX), ("a", exAX)] ≠ idxX := by
  decide

/-- C2 (amended): registering a pre-built subtree whose N ids are fresh,
pairwise distinct and non-empty succeeds and appends exactly N
registrations to the index; on a duplicate anywhere in the subtree the
call fails, every id registered before the call remains registered, but
subtree elements processed before the collision stay registered too
(the index is not restored to its pre-call contents). -/
theorem c2_bulk_registration (rand : Nat → Fin 36) (fuel : Nat)
    (idx : SModelIndex) (e : SModelElement) (pos : Nat)
    (rand2 : Nat → Fin 36) (fuel2 : Nat) (idx2 : SModelIndex)
    (e2 : SModelElement) (pos2 : Nat) (i2 : SModelIndex) (p2 : Nat)
    (er2 : SError) (j : String)
    (hfresh : ∀ id ∈ subtreeIds e, idx.has id = false)
    (hnodup : (subtreeIds e).Nodup)
    (hne : ∀ id ∈ subtreeIds e, id ≠ "")
    (herr : indexAdd rand2 fuel2 idx2 e2 pos2 = .err i2 p2 er2)
    (hj : idx2.has j = true) :
    indexAdd rand fuel idx e pos = .ok (idx ++ registrations e) e pos ∧
    (idx ++ registrations e).length = idx.length + (subtreeIds e).length ∧
    i2.has j = true := by
  refine ⟨indexAdd_fresh rand fuel idx e pos hfresh hnodup hne, ?_, ?_⟩
  · rw [List.length_append, registrations_length]
  · have hk := indexAdd_keeps rand2 fuel2 idx2 e2 pos2 j
    rw [herr] at hk
    simp only [AddRes.keeps] at hk
    exact hk hj

theorem c2_bulk_registration_witness :
    (indexAdd rand0 1 [] exAX 0 = .ok ([] ++ registrations exAX) exAX 0 ∧
    (([] : SModelIndex) ++ registrations exAX).length =
      ([] : SModelIndex).length + (subtreeIds exAX).length ∧
    SModelIndex.has [("x", exX), ("a", exAX)] "x" = true) :=
  c2_bulk_registration rand0 1 [] exAX 0 rand0 1 idxX exAX 0
    [("x", exX), ("a", exAX)] 0 (.duplicateIdentifier "x") "x"
    (by decide) (by decide) (by decide) (by decide) (by decide)

theorem createRandomId_length (rand : Nat → Fin 36) (pos len : Nat) :
    (createRandomId rand pos len).length = len := by
  have h : (createRandomId rand pos len).length =
      ((List.range len).map
        (fun i => ID_CHARS.data.getD (rand (pos + i)).val 'x')).length := rfl
  rw [h, List.length_map, List.length_range]

theorem idCharsGetD_mem : ∀ j : Fin 36,
    ID_CHARS.data.contains (ID_CHARS.data.getD j.val 'x') = true := by decide

theorem createRandomId_alphabet (rand : Nat → Fin 36) (pos len : Nat) :
    (createRandomId rand pos len).data.all
      (fun ch => ID_CHARS.data.contains ch) = true := by
  have hdata : (createRandomId rand pos len).data =
      (List.range len).map (fun i => ID_CHARS.data.getD (rand (pos + i)).val 'x') :=
    rfl
  rw [hdata, List.all_eq_true]
  intro x hx
  rw [List.mem_map] at hx
  obtain ⟨i, _, hmap⟩ := hx
  rw [← hmap]
  exact idCharsGetD_mem (rand (pos + i))

theorem genFreshId_spec (idx : SModelIndex) (rand : Nat → Fin 36) :
    ∀ (fuel pos : Nat) (nid : String) (p' : Nat),
      genFreshId idx rand pos fuel = some (nid, p') →
      idx.has nid = false ∧ ∃ q, nid = createRandomId rand q defaultIdLength
  | 0, pos, nid, p' => by
    intro h
    rw [genFreshId] at h
    cases h
  | fuel + 1, pos, nid, p' => by
    intro h
    rw [genFreshId] at h
    by_cases hc : idx.has (createRandomId rand pos defaultIdLength) = true
    · rw [if_pos hc] at h
      exact genFreshId_spec idx rand fuel (pos + defaultIdLength) nid p' h
    · rw [if_neg hc] at h
      injection h with h'
      injection h' with h1 h2
      subst h1
      exact ⟨by simpa using hc, pos, rfl⟩

theorem indexAdd_ok_nonempty (rand : Nat → Fin 36) (fuel : Nat)
    (idx : SModelIndex) (ty id : String) (cs : List SModelElement) (pos : Nat)
    (i : SModelIndex) (e' : SModelElement) (p : Nat)
    (hne : id ≠ "")
    (hok : indexAdd rand fuel idx (.mk ty id cs) pos = .ok i e' p) :
    e'.id = id ∧ i.has id = true := by
  rw [indexAdd, if_neg hne] at hok
  by_cases hhas : idx.has id = true
  · rw [if_pos hhas] at hok
    cases hok
  · rw [if_neg hhas] at hok
    have hk := indexAddChildren_keeps rand fuel (idx.set id (.mk ty id cs)) cs pos id
    cases hc : indexAddChildren rand fuel (idx.set id (.mk ty id cs)) cs pos with
    | ok idx' cs' p' =>
      rw [hc] at hk
      simp only [AddResL.keeps] at hk
      simp only [hc] at hok
      injection hok with h1 h2 h3
      subst h1
      constructor
      · rw [← h2]
        rfl
      · exact hk (set_has_self idx id _)
    | err i2 p2 e2 =>
      simp only [hc] at hok
      cases hok
    | diverge =>
      simp only [hc] at hok
      cases hok

/-- C9: registering an element with an empty id assigns a generated id of
exactly the default length 8 over the digits-plus-lowercase alphabet;
the assigned id was not registered before the call; and two successive
such registrations (both generation loops terminating) assign distinct
ids. -/
theorem c9_auto_id_generation (idx : SModelIndex) (rand rand2 : Nat → Fin 36)
    (pos pos2 fuel fuel2 : Nat) (ty ty2 nid nid2 : String) (p' p2 : Nat)
    (h1 : genFreshId idx rand pos fuel = some (nid, p'))
    (h2 : genFreshId (idx.set nid (.mk ty nid [])) rand2 pos2 fuel2 =
      some (nid2, p2)) :
    nid.length = defaultIdLength ∧
    nid.data.all (fun ch => ID_CHARS.data.contains ch) = true ∧
    idx.has nid = false ∧
    indexAdd rand fuel idx (.mk ty "" []) pos =
      .ok (idx.set nid (.mk ty nid [])) (.mk ty nid []) p' ∧
    indexAdd rand2 fuel2 (idx.set nid (.mk ty nid [])) (.mk ty2 "" []) pos2 =
      .ok ((idx.set nid (.mk ty nid [])).set nid2 (.mk ty2 nid2 []))
        (.mk ty2 nid2 []) p2 ∧
    nid2 ≠ nid := by
  obtain ⟨hf1, q1, hq1⟩ := genFreshId_spec idx rand fuel pos nid p' h1
  obtain ⟨hf2, q2, hq2⟩ :=
    genFreshId_spec (idx.set nid (.mk ty nid [])) rand2 fuel2 pos2 nid2 p2 h2
  refine ⟨?_, ?_, hf1, ?_, ?_, ?_⟩
  · rw [hq1, createRandomId_length]
  · rw [hq1]
    exact createRandomId_alphabet rand q1 defaultIdLength
  · rw [indexAdd, if_pos rfl]
    simp only [h1, indexAddChildren]
  · rw [indexAdd, if_pos rfl]
    simp only [h2, indexAddChildren]
  · intro he
    subst he
    rw [set_has_self] at hf2
    cases hf2

theorem c9_auto_id_generation_witness :
    ("01234567" : String).length = defaultIdLength ∧
    ("01234567" : String).data.all (fun ch => ID_CHARS.data.contains ch) = true ∧
    SModelIndex.has [] "01234567" = false ∧
    indexAdd rand0 1 [] (.mk "t" "" []) 0 =
      .ok (SModelIndex.set [] "01234567" (.mk "t" "01234567" []))
        (.mk "t" "01234567" []) 8 ∧
    indexAdd rand0 1 (SModelIndex.set [] "01234567" (.mk "t" "01234567" []))
        (.mk "u" "" []) 8 =
      .ok ((SModelIndex.set [] "01234567" (.mk "t" "01234567" [])).set
          "89abcdef" (.mk "u" "89abcdef" [])) (.mk "u" "89abcdef" []) 16 ∧
    ("89abcdef" : String) ≠ "01234567" :=
  c9_auto_id_generation [] rand0 rand0 0 8 1 1 "t" "u" "01234567" "89abcdef"
    8 16 (by decide) (by decide)

/-- C10: index membership and duplicate detection compare ids only,
never object identity: `contains` agrees on any two elements with equal
ids; adding an element whose (non-empty) id is registered throws
`DuplicateIdentifier`; and re-adding the very element object a
successful add just returned throws `DuplicateIdentifier` — `add` is not
idempotent. -/
theorem c10_id_only_duplicates (idx : SModelIndex) (e1 e2 : SModelElement)
    (rand rand2 rand3 : Nat → Fin 36) (fuel fuel2 fuel3 : Nat)
    (idx2 : SModelIndex) (e : SModelElement) (pos pos2 pos3 : Nat)
    (idx3 i3 : SModelIndex) (ty3 id3 : String) (cs3 : List SModelElement)
    (e3' : SModelElement) (p3 : Nat)
    (hid : e1.id = e2.id)
    (hne : e.id ≠ "") (hct : idx2.containsEl e = true)
    (hne3 : id3 ≠ "")
    (hok3 : indexAdd rand2 fuel2 idx3 (.mk ty3 id3 cs3) pos2 = .ok i3 e3' p3) :
    idx.containsEl e1 = idx.containsEl e2 ∧
    indexAdd rand fuel idx2 e pos = .err idx2 pos (.duplicateIdentifier e.id) ∧
    indexAdd rand3 fuel3 i3 e3' pos3 = .err i3 pos3 (.duplicateIdentifier id3) := by
  obtain ⟨hie, hhs⟩ :=
    indexAdd_ok_nonempty rand2 fuel2 idx3 ty3 id3 cs3 pos2 i3 e3' p3 hne3 hok3
  refine ⟨?_, ?_, ?_⟩
  · rw [SModelIndex.containsEl, SModelIndex.containsEl, hid]
  · exact indexAdd_dup rand fuel idx2 e pos hne
      (by rwa [SModelIndex.containsEl] at hct)
  · have hr := indexAdd_dup rand3 fuel3 i3 e3' pos3
      (by rw [hie]; exact hne3) (by rw [hie]; exact hhs)
    rwa [hie] at hr

theorem c10_id_only_duplicates_witness :
    idxA.containsEl exA = idxA.containsEl (SModelElement.mk "u" "a" []) ∧
    indexAdd rand0 1 idxA exA 0 = .err idxA 0 (.duplicateIdentifier exA.id) ∧
    indexAdd rand0 1 [("a", exA)] exA 0 =
      .err [("a", exA)] 0 (.duplicateIdentifier "a") :=
  c10_id_only_duplicates idxA exA (SModelElement.mk "u" "a" []) rand0 rand0
    rand0 1 1 1 idxA exA 0 0 0 [] [("a", exA)] "t" "a" [] exA 0
    (by decide) (by decide) (by decide) (by decide) (by decide)
